import Mathlib

set_option maxRecDepth 8000

/-!
Verification development for the nostr-explore-mcp repository.

The TypeScript source is shallowly embedded into Lean:

* JS `Map<string, V>` objects are embedded as insertion-ordered association
  lists `List (String × V)`; `Map.set` updates in place or appends,
  `Map.delete` removes, `Map.size` is the list length (keys are kept unique
  by construction).
* Fallible TS code (thrown exceptions) is embedded with `Except String`.
* `Date.now()` is passed in explicitly as a `now : Nat` parameter
  (unix seconds, i.e. the value of `Math.floor(Date.now() / 1000)`).
* JS truthiness tests on strings/numbers (`if (x)`) are embedded as
  explicit `≠ ""` / `≠ 0` / `Option.isSome` tests, matching the semantics
  of `undefined`, `""` and `0` being falsy.
* Optional object fields (TS `field?: T`) become `Option T`; JS indexing
  `tag[i]` (which yields `undefined` out of range) becomes `List.get? i`.
-/

namespace NostrMCP

/-- Model of an inbound network event (`NDKEvent`) as consumed by this
repository: id, author pubkey, kind, creation time, content and tags.
The lazily-loaded author profile (`event.author?.profile?.name` /
`display_name`) is embedded as two optional fields on the event. -/
structure SourceEvent where
  id : String
  pubkey : String
  kind : Nat
  created_at : Nat
  content : String
  tags : List (List String)
  profileName : Option String := none
  profileDisplayName : Option String := none
deriving Repr, DecidableEq

/-- Model of the repository's `NotificationEvent` interface
(`types.ts`): optional id/sig, author pubkey, creation time, kind
(always 1616 as built), tags and content. -/
structure NotificationEvent where
  id : Option String := none
  pubkey : String
  created_at : Nat
  kind : Nat
  tags : List (List String)
  content : String
  sig : Option String := none
deriving Repr, DecidableEq

/-- Model of the repository's `NotificationFilter` interface. -/
structure NotificationFilter where
  since : Option Nat := none
  until_ : Option Nat := none
  limit : Option Nat := none
deriving Repr, DecidableEq

section JsMap

variable {α : Type}

/-- JS `Map.has`. -/
def jsMapHas (k : String) (m : List (String × α)) : Bool :=
  m.any (fun p => p.1 == k)

/-- JS `Map.get` (yields `undefined`, i.e. `none`, when absent). -/
def jsMapGet (k : String) (m : List (String × α)) : Option α :=
  (m.find? (fun p => p.1 == k)).map Prod.snd

/-- JS `Map.set`: update the entry in place when the key is present
(keeping its position in insertion order), otherwise append. -/
def jsMapSet (k : String) (v : α) (m : List (String × α)) : List (String × α) :=
  match m with
  | [] => [(k, v)]
  | (k', v') :: rest =>
      if k' == k then (k, v) :: rest else (k', v') :: jsMapSet k v rest

/-- JS `Map.delete`: remove the entry with the given key, if present. -/
def jsMapDelete (k : String) (m : List (String × α)) : List (String × α) :=
  match m with
  | [] => []
  | (k', v') :: rest =>
      if k' == k then rest else (k', v') :: jsMapDelete k rest

end JsMap

/-! ## Event classifier (`EventProcessor`, src/unnamed/part_003) -/

/-- Category values of `EventProcessor.categorizeEvent`. -/
inductive Category where
  | mention | reply | reaction | repost | other
deriving Repr, DecidableEq

/-- Priority values of `EventProcessor.categorizeEvent`. -/
inductive Priority where
  | high | medium | low
deriving Repr, DecidableEq

/-- Result record of `EventProcessor.enrichEventContext`. -/
structure EventContext where
  isReply : Bool
  isReaction : Bool
  isMention : Bool
  isRepost : Bool
  threadRoot : Option String
  replyTo : Option String
deriving Repr, DecidableEq

/-- The `"e"` tags of an event, in order (`event.tags.filter(tag => tag[0] === "e")`). -/
def eTagsOf (e : SourceEvent) : List (List String) :=
  e.tags.filter (fun t => t.get? 0 == some "e")

/-- Embedding of `EventProcessor.enrichEventContext`.  The JS
`find(...) || eTags[eTags.length - 1]` for the reply tag is embedded as
`Option.orElse` with the last element (indexing past the end yields
`undefined`, i.e. `none`). -/
def enrichEventContext (e : SourceEvent) : EventContext :=
  let eTags := eTagsOf e
  let rootTag := eTags.find? (fun t => t.get? 3 == some "root")
  let replyTag := (eTags.find? (fun t => t.get? 3 == some "reply")).orElse
    (fun _ => eTags.getLast?)
  { isReply := decide (eTags.length > 0) && (e.kind == 1)
    isReaction := e.kind == 7
    isMention := e.tags.any (fun t => t.get? 0 == some "p")
    isRepost := e.kind == 6
    threadRoot := rootTag.bind (fun t => t.get? 1)
    replyTo := replyTag.bind (fun t => t.get? 1) }

/-- Embedding of `EventProcessor.categorizeEvent`: the if-chain over the
enriched context, in source order. -/
def categorizeEvent (e : SourceEvent) : Category × Priority :=
  let context := enrichEventContext e
  if context.isMention && (e.kind == 1) then (.mention, .high)
  else if context.isReply then (.reply, .high)
  else if context.isReaction then (.reaction, .medium)
  else if context.isRepost then (.repost, .medium)
  else (.other, .low)

/-- Classifier category/priority as the SPEC words it (spec 4.3): the
precedence list "mention-on-note-kind, reply, reaction, repost, other"
evaluated in order with first match winning, where mention means at
least one `"p"` tag, reply means note kind with at least one `"e"` tag,
reaction and repost are the reserved kinds 7 and 6. -/
def categorizeSpec (e : SourceEvent) : Category × Priority :=
  if (e.tags.any (fun t => t.get? 0 == some "p")) && (e.kind == 1) then (.mention, .high)
  else if (e.tags.any (fun t => t.get? 0 == some "e")) && (e.kind == 1) then (.reply, .high)
  else if e.kind == 7 then (.reaction, .medium)
  else if e.kind == 6 then (.repost, .medium)
  else (.other, .low)

/-! ## Notification builder (`NotificationBuilder`, src/unnamed/part_003) -/

/-- Embedding of `generateDTag`: the deterministic discriminator,
`"notification-" + sourceEventId + "-" + agentPubkey.substring(0, 8)`. -/
def generateDTag (sourceEventId : String) (agentPubkey : String) : String :=
  "notification-" ++ sourceEventId ++ "-" ++ agentPubkey.take 8

/-- Embedding of the kind-description lookup table in `generateEventSummary`. -/
def kindDescription (kind : Nat) : Option String :=
  if kind == 0 then some "profile metadata update"
  else if kind == 1 then some "text note"
  else if kind == 3 then some "contact list update"
  else if kind == 4 then some "encrypted direct message"
  else if kind == 5 then some "event deletion request"
  else if kind == 6 then some "repost"
  else if kind == 7 then some "reaction"
  else if kind == 40 then some "channel creation"
  else if kind == 41 then some "channel metadata"
  else if kind == 42 then some "channel message"
  else if kind == 1984 then some "report"
  else if kind == 9735 then some "zap receipt"
  else if kind == 10002 then some "relay list"
  else if kind == 30023 then some "long-form content"
  else none

/-- Embedding of `generateEventSummary` (author name fallback chain,
kind noun, truncated preview, self-mention phrasing).  `event.kind || 1`
is embedded as the zero-falsy test. -/
def generateEventSummary (e : SourceEvent) : String :=
  let lookupKind := if e.kind == 0 then 1 else e.kind
  let eventType := match kindDescription lookupKind with
    | some d => d
    | none => "kind " ++ toString e.kind ++ " event"
  let author := match e.profileName with
    | some n => n
    | none => match e.profileDisplayName with
      | some n => n
      | none => e.pubkey.take 8 ++ "..."
  let contentPreview := if e.content ≠ "" then
      e.content.take 100 ++ (if e.content.length > 100 then "..." else "")
    else ""
  let hasMention := e.tags.any (fun t => t.get? 0 == some "p" && t.get? 1 == some e.pubkey)
  let action := if hasMention then "mentioned you in" else "created"
  author ++ " " ++ action ++ " a " ++ eventType ++
    (if contentPreview ≠ "" then ": \"" ++ contentPreview ++ "\"" else "")

/-- Embedding of `buildNotificationEvent`: the derived notification
record.  `created_at` is the wall-clock time of construction, passed in
as `now`.  `event.id || ""` is embedded directly (ids are plain strings
here), `event.kind || 0` keeps the kind. -/
def buildNotificationEvent (sourceEvent : SourceEvent) (agentPubkey : String)
    (now : Nat) : NotificationEvent :=
  let dTag := generateDTag sourceEvent.id agentPubkey
  { pubkey := agentPubkey
    created_at := now
    kind := 1616
    tags := [["e", sourceEvent.id],
             ["p", sourceEvent.pubkey],
             ["k", toString sourceEvent.kind],
             ["d", dTag]]
    content := generateEventSummary sourceEvent }

/-! ## Notification store (`NotificationStorage`, src/unnamed/part_003) -/

/-- State of a `NotificationStorage` instance: the JS `Map` of
notifications keyed by discriminator, the capacity, and the separate
insertion-order list used for eviction. -/
structure NotificationStorage where
  notifications : List (String × NotificationEvent)
  maxSize : Nat
  notificationOrder : List String
deriving Repr, DecidableEq

/-- Fresh storage, as built by the constructor. -/
def emptyStorage (maxSize : Nat) : NotificationStorage :=
  { notifications := [], maxSize := maxSize, notificationOrder := [] }

/-- Embedding of `NotificationStorage.generateKey`: the `"d"` tag value
when present and truthy (JS `dTag || fallback` — an empty string falls
through), otherwise `created_at + "-" + pubkey`. -/
def generateKey (n : NotificationEvent) : String :=
  let dTag := (n.tags.find? (fun t => t.get? 0 == some "d")).bind (fun t => t.get? 1)
  match dTag with
  | some v => if v ≠ "" then v else toString n.created_at ++ "-" ++ n.pubkey
  | none => toString n.created_at ++ "-" ++ n.pubkey

/-- Embedding of the `prune` while-loop: while the order list is longer
than `maxSize`, shift the oldest key and delete it from the map (the JS
`if (oldestKey)` guard skips the delete for a falsy — empty — key). -/
def pruneLoop (maxSize : Nat) :
    List String → List (String × NotificationEvent) →
    List String × List (String × NotificationEvent)
  | [], map => ([], map)
  | oldestKey :: rest, map =>
      if rest.length + 1 > maxSize then
        if oldestKey ≠ "" then pruneLoop maxSize rest (jsMapDelete oldestKey map)
        else pruneLoop maxSize rest map
      else (oldestKey :: rest, map)

/-- Embedding of `NotificationStorage.prune`. -/
def NotificationStorage.prune (s : NotificationStorage) : NotificationStorage :=
  { s with
    notificationOrder := (pruneLoop s.maxSize s.notificationOrder s.notifications).1
    notifications := (pruneLoop s.maxSize s.notificationOrder s.notifications).2 }

/-- Embedding of `NotificationStorage.store`: push the key on first
insertion, upsert into the map, then prune. -/
def NotificationStorage.store (s : NotificationStorage) (n : NotificationEvent) :
    NotificationStorage :=
  let key := generateKey n
  let order := if jsMapHas key s.notifications then s.notificationOrder
    else s.notificationOrder ++ [key]
  let map := jsMapSet key n s.notifications
  NotificationStorage.prune { s with notificationOrder := order, notifications := map }

/-- Embedding of `NotificationStorage.size` (`Map.size`). -/
def NotificationStorage.size (s : NotificationStorage) : Nat :=
  s.notifications.length

/-- Stable insertion (descending by `created_at`) implementing the JS
`results.sort((a, b) => b.created_at - a.created_at)` comparator:
an element moves past exactly the strictly newer ones. -/
def insertByCreatedDesc (a : NotificationEvent) :
    List NotificationEvent → List NotificationEvent
  | [] => [a]
  | b :: rest =>
      if b.created_at > a.created_at then b :: insertByCreatedDesc a rest
      else a :: b :: rest

/-- Stable sort, newest first, as performed by `retrieve`. -/
def sortByCreatedDesc : List NotificationEvent → List NotificationEvent
  | [] => []
  | a :: rest => insertByCreatedDesc a (sortByCreatedDesc rest)

/-- Step `if (filters.since) results = results.filter(n => n.created_at >= filters.since)`:
the JS truthiness test skips the filter when the field is `undefined` OR `0`. -/
def applySince (since : Option Nat) (results : List NotificationEvent) :
    List NotificationEvent :=
  match since with
  | some v => if v ≠ 0 then results.filter (fun n => decide (n.created_at ≥ v)) else results
  | none => results

/-- Step `if (filters.until) results = results.filter(n => n.created_at <= filters.until)`,
with the same truthiness semantics. -/
def applyUntil (until_ : Option Nat) (results : List NotificationEvent) :
    List NotificationEvent :=
  match until_ with
  | some v => if v ≠ 0 then results.filter (fun n => decide (n.created_at ≤ v)) else results
  | none => results

/-- Step `if (filters.limit) results = results.slice(0, filters.limit)`,
with the same truthiness semantics (a limit of `0` is skipped). -/
def applyLimit (limit : Option Nat) (results : List NotificationEvent) :
    List NotificationEvent :=
  match limit with
  | some l => if l ≠ 0 then results.take l else results
  | none => results

/-- Embedding of `NotificationStorage.retrieve`: values, since-filter,
until-filter, newest-first sort, then limit truncation. -/
def NotificationStorage.retrieve (s : NotificationStorage)
    (filters : NotificationFilter) : List NotificationEvent :=
  applyLimit filters.limit
    (sortByCreatedDesc
      (applyUntil filters.until_
        (applySince filters.since (s.notifications.map Prod.snd))))

/-- Embedding of `NotificationStorage.clear`. -/
def NotificationStorage.clear (s : NotificationStorage) : NotificationStorage :=
  { s with notifications := [], notificationOrder := [] }

/-- Embedding of `NotificationStorage.export` (full unsorted dump). -/
def NotificationStorage.exportAll (s : NotificationStorage) : List NotificationEvent :=
  s.notifications.map Prod.snd

/-- Well-formedness invariant tying the two bookkeeping structures of a
storage together: the insertion-order list is exactly the map's key
sequence, keys are unique, and no key is the empty string.  It holds
for the freshly constructed storage and is preserved by `store`. -/
def StorageWf (s : NotificationStorage) : Prop :=
  s.notificationOrder = s.notifications.map Prod.fst ∧
  s.notificationOrder.Nodup ∧
  ∀ k ∈ s.notificationOrder, k ≠ ""

instance (s : NotificationStorage) : Decidable (StorageWf s) := by
  unfold StorageWf; infer_instance

/-! ## Notification service (`NotificationService`, src/unnamed/part_002) -/

/-- Model of the `NDKFilter` built by `startMonitoring`: the `"#p"`
tag-value list and the `since` lower time bound. -/
structure LiveFilter where
  pTags : List String
  since : Nat
deriving Repr, DecidableEq

/-- Event-source filter semantics, modelled from the spec (section 6,
Event Source collaborator): an event matches when one of its `"p"` tags
carries a value in the filter's `"#p"` list and its `created_at` is at
or after the `since` lower bound.  The repository only constructs
filters; matching happens in the external relay/NDK collaborator. -/
def matchesFilter (f : LiveFilter) (e : SourceEvent) : Bool :=
  e.tags.any (fun t =>
    t.get? 0 == some "p" &&
    (match t.get? 1 with
     | some v => f.pTags.contains v
     | none => false)) &&
  decide (f.since ≤ e.created_at)

/-- State of a `NotificationService`: the live-query handle is embedded
as the filter it was opened with (`none` = no subscription). -/
structure NotificationService where
  agentPubkey : String
  subscription : Option LiveFilter := none
  storage : NotificationStorage
  eventCount : Nat := 0
  startTime : Nat := 0
deriving Repr, DecidableEq

/-- Embedding of the `NotificationService` constructor. -/
def NotificationService.new (agentPubkey : String) (maxStorageSize : Nat := 1000) :
    NotificationService :=
  { agentPubkey := agentPubkey, storage := emptyStorage maxStorageSize }

/-- Embedding of `NotificationService.startMonitoring`: throws when a
subscription already exists, otherwise records the start time and opens
the live query with filter `{"#p": [agentPubkey], since: startTime}`. -/
def NotificationService.startMonitoring (s : NotificationService) (now : Nat) :
    Except String NotificationService :=
  if s.subscription.isSome then
    Except.error "Monitoring already active for this agent"
  else
    Except.ok { s with
      startTime := now
      subscription := some { pTags := [s.agentPubkey], since := now } }

/-- Embedding of `NotificationService.stopMonitoring`. -/
def NotificationService.stopMonitoring (s : NotificationService) : NotificationService :=
  { s with subscription := none }

/-- Embedding of `NotificationService.isMonitoring`. -/
def NotificationService.isMonitoring (s : NotificationService) : Bool :=
  s.subscription.isSome

/-- Embedding of `NotificationService.handleIncomingEvent`: build the
notification from the source event (at wall-clock time `now`) and store
it, incrementing the processed-event counter. -/
def NotificationService.handleIncomingEvent (s : NotificationService)
    (event : SourceEvent) (now : Nat) : NotificationService :=
  { s with
    eventCount := s.eventCount + 1
    storage := s.storage.store (buildNotificationEvent event s.agentPubkey now) }

/-- Handling of a whole delivered event sequence (each with its
wall-clock arrival time), in delivery order. -/
def NotificationService.handleMany (s : NotificationService)
    (evs : List (SourceEvent × Nat)) : NotificationService :=
  evs.foldl (fun acc p => acc.handleIncomingEvent p.1 p.2) s

/-- Embedding of `NotificationService.getNotifications`. -/
def NotificationService.getNotifications (s : NotificationService)
    (filters : NotificationFilter := {}) : List NotificationEvent :=
  s.storage.retrieve filters

/-! ## Subscription manager (`SubscriptionManager`, src/unnamed/part_003) -/

/-- State of the `SubscriptionManager`: the JS `Map` from agent pubkey
to its `NotificationService`. -/
structure SubscriptionManager where
  services : List (String × NotificationService)
deriving Repr, DecidableEq

/-- Embedding of `SubscriptionManager.addSubscription`. -/
def SubscriptionManager.addSubscription (m : SubscriptionManager)
    (agentPubkey : String) (now : Nat) : Except String SubscriptionManager :=
  if jsMapHas agentPubkey m.services then
    Except.error ("Already monitoring agent: " ++ agentPubkey)
  else
    match (NotificationService.new agentPubkey 1000).startMonitoring now with
    | Except.error e => Except.error e
    | Except.ok svc => Except.ok { services := jsMapSet agentPubkey svc m.services }

/-- Embedding of `SubscriptionManager.removeSubscription`: returns
whether anything was stopped, plus the new state. -/
def SubscriptionManager.removeSubscription (m : SubscriptionManager)
    (agentPubkey : String) : Bool × SubscriptionManager :=
  match jsMapGet agentPubkey m.services with
  | some _ => (true, { services := jsMapDelete agentPubkey m.services })
  | none => (false, m)

/-- The service `handleReconnection` installs for an identity: a brand
new `NotificationService` (constructor defaults: empty storage of
capacity 1000, zero event count) started at `now`. -/
def freshStartedService (agentPubkey : String) (now : Nat) : NotificationService :=
  { agentPubkey := agentPubkey
    subscription := some { pTags := [agentPubkey], since := now }
    storage := emptyStorage 1000
    eventCount := 0
    startTime := now }

/-- Embedding of the `handleReconnection` for-loop over the snapshot of
entries (the map having been cleared first): for each previously
monitoring service, construct a NEW `NotificationService`, start it,
and set it under the same pubkey key. -/
def handleReconnectionGo (now : Nat) :
    List (String × NotificationService) → List (String × NotificationService) →
    Except String (List (String × NotificationService))
  | [], acc => Except.ok acc
  | (pubkey, oldService) :: rest, acc =>
      if oldService.isMonitoring then
        match (NotificationService.new pubkey 1000).startMonitoring now with
        | Except.error e => Except.error e
        | Except.ok newService =>
            handleReconnectionGo now rest (jsMapSet pubkey newService acc)
      else handleReconnectionGo now rest acc

/-- Embedding of `SubscriptionManager.handleReconnection`. -/
def SubscriptionManager.handleReconnection (m : SubscriptionManager) (now : Nat) :
    Except String SubscriptionManager :=
  (handleReconnectionGo now m.services []).map (fun svcs => { services := svcs })

/-! ## Thread reconstruction (`getConversationTool.handler`, src/unnamed/part_008) -/

/-- One-shot event fetch by id from the modelled event pool
(`ndk.fetchEvent`). -/
def fetchEvent (db : List SourceEvent) (id : String) : Option SourceEvent :=
  db.find? (fun e => e.id == id)

/-- Embedding of the root-id determination (lines 42-61): no `"e"` tags
means the event is its own root; else a marked `"root"` tag wins; else
— in both the single-tag and the multi-tag positional branches — the
first `"e"` tag's id.  `none` models a JS `undefined` root id (a marked
root tag without a value). -/
def rootIdOf (e : SourceEvent) : Option String :=
  let eTags := eTagsOf e
  if eTags.length == 0 then some e.id
  else
    match eTags.find? (fun t => t.get? 3 == some "root") with
    | some rootTag => rootTag.get? 1
    | none =>
        if eTags.length == 1 then (eTags.get? 0).bind (fun t => t.get? 1)
        else (eTags.get? 0).bind (fun t => t.get? 1)

/-- Root determination as the SPEC words it: zero `"e"` tags → own id;
marked `"root"` tag → its id; otherwise the first `"e"` tag's id. -/
def rootIdSpec (e : SourceEvent) : Option String :=
  let eTags := eTagsOf e
  if eTags.isEmpty then some e.id
  else
    match eTags.find? (fun t => t.get? 3 == some "root") with
    | some rootTag => rootTag.get? 1
    | none => eTags.head?.bind (fun t => t.get? 1)

/-- Embedding of the parent determination inside the walk (lines
99-113): marked `"reply"` tag wins; else a single `"e"` tag is the
parent; else with two or more the last one; `none` when there are no
`"e"` tags (or the chosen tag has no value). -/
def parentIdOf (e : SourceEvent) : Option String :=
  let eTags := eTagsOf e
  match eTags.find? (fun t => t.get? 3 == some "reply") with
  | some replyTag => replyTag.get? 1
  | none =>
      if eTags.length == 1 then (eTags.get? 0).bind (fun t => t.get? 1)
      else if eTags.length ≥ 2 then eTags.getLast?.bind (fun t => t.get? 1)
      else none

/-- Parent determination as the SPEC words it: the marked `"reply"`
tag's id when present, else the only `"e"` tag's id when there is
exactly one, else the last `"e"` tag's id. -/
def parentIdSpec (e : SourceEvent) : Option String :=
  let eTags := eTagsOf e
  match eTags.find? (fun t => t.get? 3 == some "reply") with
  | some replyTag => replyTag.get? 1
  | none =>
      match eTags with
      | [] => none
      | [t] => t.get? 1
      | _ => eTags.getLast?.bind (fun t => t.get? 1)

/-- The next event of the backward walk:
`currentEvent = parentId ? eventMap.get(parentId) || null : null`
(a JS-falsy — empty — parent id stops the walk, as does a map miss). -/
def nextWalkEvent (eventMap : List (String × SourceEvent)) (e : SourceEvent) :
    Option SourceEvent :=
  match parentIdOf e with
  | some parentId => if parentId ≠ "" then jsMapGet parentId eventMap else none
  | none => none

/-- Embedding of the backward walk loop (lines 92-116), fuelled: each
iteration prepends the current event (modelled by appending ancestors in
front), stops at the root or when no parent resolves.  `none` models
non-termination of the JS `while` loop (which has no cycle protection):
running out of fuel `eventMap.length + 2` implies a repeated, hence
forever-cycling, current event. -/
def walkLoop (eventMap : List (String × SourceEvent)) (rootEventId : String) :
    Nat → SourceEvent → Option (List SourceEvent)
  | 0, _ => none
  | fuel + 1, currentEvent =>
      if currentEvent.id == rootEventId then some [currentEvent]
      else
        match nextWalkEvent eventMap currentEvent with
        | none => some [currentEvent]
        | some parent =>
            (walkLoop eventMap rootEventId fuel parent).map
              (fun path => path ++ [currentEvent])

/-- Outcome of the `get_conversation` handler's pure core: a root-first
conversation path, a thrown error, or divergence of the walk loop. -/
inductive ThreadResult where
  | path : List SourceEvent → ThreadResult
  | thrown : String → ThreadResult
  | diverges : ThreadResult
deriving Repr, DecidableEq

/-- The broad thread query `fetchEvents {kinds: [1], "#e": [rootEventId]}`:
all kind-1 events of the pool referencing the root via an `"e"` tag. -/
def threadCandidates (db : List SourceEvent) (rootEventId : String) :
    List SourceEvent :=
  db.filter (fun ev =>
    ev.kind == 1 &&
    ev.tags.any (fun t => t.get? 0 == some "e" && t.get? 1 == some rootEventId))

/-- The id-keyed lookup map of the candidate thread set, seeded with the
root event. -/
def threadEventMap (db : List SourceEvent) (rootEventId : String)
    (rootEvent : SourceEvent) : List (String × SourceEvent) :=
  (threadCandidates db rootEventId).foldl
    (fun m ev => jsMapSet ev.id ev m) (jsMapSet rootEventId rootEvent [])

/-- Embedding of the thread-reconstruction core of
`getConversationTool.handler`: fetch the target, determine the root id,
fetch the root, fetch all kind-1 events referencing the root through an
`"e"` tag, build the id-keyed lookup map seeded with the root, then
walk backward from the target. -/
def getThread (db : List SourceEvent) (eventId : String) : ThreadResult :=
  match fetchEvent db eventId with
  | none => ThreadResult.thrown "Event not found"
  | some requestedEvent =>
      match rootIdOf requestedEvent with
      | none => ThreadResult.thrown "Root event not found"
      | some rootEventId =>
          match (if rootEventId == requestedEvent.id
            then some requestedEvent else fetchEvent db rootEventId) with
          | none => ThreadResult.thrown "Root event not found"
          | some rootEvent =>
              match walkLoop (threadEventMap db rootEventId rootEvent) rootEventId
                  ((threadEventMap db rootEventId rootEvent).length + 2)
                  requestedEvent with
              | none => ThreadResult.diverges
              | some path => ThreadResult.path path

/-! ## Content resolver (`resolveNostrContent`, src/src/tools/utils/contentResolver.ts)

The network and codec collaborators are abstracted into a pure
environment: `events` models `ndk.fetchEvent` keyed by the full
`nostr:...` reference text (a `none` result covers both not-found and a
fetch timeout, which the source converts into a soft error), `profiles`
models the whole of `fetchUserProfile` (profile fetch, JSON parse and
display-name fallback) as pubkey → resolved display name, and
`npubDecode`/`npubEncode` model the bech32 identifier codec. -/

/-- Pure environment standing for the network and codec collaborators
of the content resolver. -/
structure ResolveEnv where
  events : List (String × SourceEvent)
  profiles : List (String × String)
  npubDecode : List (String × String)
  npubEncode : List (String × String)
deriving Repr, DecidableEq

/-- Author display name: `fetchUserProfile`'s result, with the
truncated-npub fallback (`user.npub.slice(0, 12) + "..."`). -/
def authorNameOf (env : ResolveEnv) (pubkey : String) : String :=
  match jsMapGet pubkey env.profiles with
  | some name => name
  | none => ((jsMapGet pubkey env.npubEncode).getD "").take 12 ++ "..."

/-- Timestamp rendering (`new Date(t * 1000).toLocaleString()`),
abstracted to an injective textual form since locale rendering is
external. -/
def formatTimestamp (unixTimestamp : Nat) : String :=
  "time:" ++ toString unixTimestamp

/-- Word characters of the JS regex `\w` (ASCII letters, digits,
underscore). -/
def isWordChar (c : Char) : Bool :=
  c.isAlphanum || c == '_'

/-- Match attempt for the regex `nostr:(\w+)` at the head of the list:
on success, the (nonempty) entity characters and the rest of the input
after the match. -/
def markerEntity (l : List Char) : Option (List Char × List Char) :=
  match l with
  | 'n' :: 'o' :: 's' :: 't' :: 'r' :: ':' :: after =>
      let entity := after.takeWhile isWordChar
      if entity.isEmpty then none else some (entity, after.drop entity.length)
  | _ => none

/-- Proof, used for the termination of the marker scan, that a
successful match consumes at least one character. -/
def markerEntity_shrinks (l entity rest : List Char)
    (h : markerEntity l = some (entity, rest)) : rest.length < l.length := by
  unfold markerEntity at h
  split at h
  case h_2 => exact absurd h (by simp)
  case h_1 after =>
    by_cases he : (after.takeWhile isWordChar).isEmpty
    · simp [he] at h
    · simp [he] at h
      have hrem : rest = after.drop (after.takeWhile isWordChar).length := h.2.symm
      subst hrem
      have hd := List.length_drop (after.takeWhile isWordChar).length after
      simp only [hd, List.length_cons]
      omega

/-- Scan for all matches of `nostr:(\w+)` left to right, continuing
after each match (the behaviour of `content.matchAll`), returning the
full matched texts in order.  The recursion is fuelled (structurally on
`Nat`) so that it computes by kernel reduction; `markerEntity_shrinks`
shows every step consumes at least one character, so fuel equal to the
input length (as passed by `findMarkers`) never runs out. -/
def findMarkersGo : Nat → List Char → List String
  | 0, _ => []
  | _ + 1, [] => []
  | fuel + 1, c :: rest =>
      match markerEntity (c :: rest) with
      | some (entity, remaining) =>
          ("nostr:" ++ String.mk entity) :: findMarkersGo fuel remaining
      | none => findMarkersGo fuel rest

/-- All `nostr:` reference markers of a content string, in order. -/
def findMarkers (content : String) : List String :=
  findMarkersGo content.toList.length content.toList

/-- Literal-string `replaceAll` over character lists (nonempty needle
`n0 :: ntail`), fuelled the same way: each step consumes at least one
character, so fuel equal to the input length never runs out. -/
def replaceAllGo (n0 : Char) (ntail rep : List Char) : Nat → List Char → List Char
  | 0, l => l
  | _ + 1, [] => []
  | fuel + 1, c :: rest =>
      if (n0 :: ntail).isPrefixOf (c :: rest) then
        rep ++ replaceAllGo n0 ntail rep fuel (rest.drop ntail.length)
      else c :: replaceAllGo n0 ntail rep fuel rest

/-- Embedding of JS `String.prototype.replaceAll` with a literal
needle (an empty needle cannot arise: needles are `nostr:...` texts). -/
def jsReplaceAll (s needle rep : String) : String :=
  match needle.toList with
  | [] => s
  | n0 :: ntail => String.mk (replaceAllGo n0 ntail rep.toList s.toList.length s.toList)

/-- The embedded-event block built for a resolved event reference
(lines 180-186 of the source): the four lines joined by newlines. -/
def embeddedEventBlock (fullMatch authorName timestamp resolvedContent : String) : String :=
  "<embedded-event id=\"" ++ fullMatch ++ "\">\n" ++
  "**" ++ authorName ++ "** • " ++ timestamp ++ "\n" ++
  resolvedContent ++ "\n" ++
  "</embedded-event>"

/-- The debug trailer appended at the outermost depth when soft errors
occurred (lines 221-227). -/
def debugTrailer (errors : List String) : String :=
  "\n\n<debug>\n" ++ String.join (errors.map (fun e => "* " ++ e ++ "\n")) ++ "</debug>"

/-- Embedding of the per-match loop of `resolveNostrContent` (lines
88-212): walk the matches in order, skip ones already replaced,
dispatch on npub/nprofile vs event reference, record soft errors, and
recursively resolve embedded event content through `resolveInner` (the
resolver one depth deeper).  Returns the replacement map (in insertion
order) and the error list. -/
def processMatchesGo (env : ResolveEnv) (resolveInner : String → String) :
    List String → List (String × String) → List String →
    List (String × String) × List String
  | [], reps, errs => (reps, errs)
  | fullMatch :: restMatches, reps, errs =>
      if jsMapHas fullMatch reps then
        processMatchesGo env resolveInner restMatches reps errs
      else
        let entity := fullMatch.drop 6
        if entity.startsWith "npub" then
          match jsMapGet entity env.npubDecode with
          | some pubkey =>
              if pubkey ≠ "" then
                processMatchesGo env resolveInner restMatches
                  (jsMapSet fullMatch ("@" ++ authorNameOf env pubkey) reps) errs
              else processMatchesGo env resolveInner restMatches reps errs
          | none =>
              processMatchesGo env resolveInner restMatches reps
                (errs ++ ["Error resolving " ++ fullMatch ++ ": invalid npub"])
        else if entity.startsWith "nprofile" then
          match jsMapGet fullMatch env.events with
          | some profileData =>
              if profileData.pubkey ≠ "" then
                processMatchesGo env resolveInner restMatches
                  (jsMapSet fullMatch ("@" ++ authorNameOf env profileData.pubkey) reps) errs
              else
                match jsMapGet entity env.npubDecode with
                | some pubkey =>
                    if pubkey ≠ "" then
                      processMatchesGo env resolveInner restMatches
                        (jsMapSet fullMatch ("@" ++ authorNameOf env pubkey) reps) errs
                    else processMatchesGo env resolveInner restMatches reps errs
                | none =>
                    processMatchesGo env resolveInner restMatches reps
                      (errs ++ ["Error resolving " ++ fullMatch ++ ": invalid npub"])
          | none =>
              match jsMapGet entity env.npubDecode with
              | some pubkey =>
                  if pubkey ≠ "" then
                    processMatchesGo env resolveInner restMatches
                      (jsMapSet fullMatch ("@" ++ authorNameOf env pubkey) reps) errs
                  else processMatchesGo env resolveInner restMatches reps errs
              | none =>
                  processMatchesGo env resolveInner restMatches reps
                    (errs ++ ["Error resolving " ++ fullMatch ++ ": invalid npub"])
        else
          match jsMapGet fullMatch env.events with
          | some event =>
              let authorInfo := authorNameOf env event.pubkey
              let resolvedEventContent := resolveInner event.content
              let embedded := embeddedEventBlock fullMatch authorInfo
                (formatTimestamp event.created_at) resolvedEventContent
              processMatchesGo env resolveInner restMatches
                (jsMapSet fullMatch embedded reps) errs
          | none =>
              processMatchesGo env resolveInner restMatches reps
                (errs ++ ["Could not fetch event " ++ fullMatch])

/-- Fuelled body of `resolveNostrContent`, written with a bare `Nat`
recursor: fuel stands for `maxDepth - currentDepth` (fuel 0 is exactly
the `currentDepth >= maxDepth` guard returning the content unrewritten)
and `isTop` for `currentDepth === 0` (the only level that appends the
debug trailer).  The inner resolver passed to the match loop is this
same function with one unit less fuel — depth increases by exactly one
per embedded-event level. -/
def resolveGoF (env : ResolveEnv) : Nat → Bool → String → String :=
  Nat.rec
    (fun _ content => content)
    (fun _ ih isTop content =>
      let ms := findMarkers content
      if ms.isEmpty then content
      else
        let pr := processMatchesGo env (ih false) ms [] []
        let resolved := pr.1.foldl (fun acc p => jsReplaceAll acc p.1 p.2) content
        if isTop && !pr.2.isEmpty then resolved ++ debugTrailer pr.2
        else resolved)

/-- Embedding of `resolveNostrContent` (defaults `maxDepth = 2`,
`currentDepth = 0`). -/
def resolveNostrContent (env : ResolveEnv) (content : String)
    (maxDepth : Nat := 2) (currentDepth : Nat := 0) : String :=
  resolveGoF env (maxDepth - currentDepth) (currentDepth == 0) content

/-! ## Resource-style NDJSON records (src/src/resources/notifications.ts, feed.ts) -/

/-- JSON field value shapes occurring in the emitted records. -/
inductive FieldVal where
  | num : Nat → FieldVal
  | str : String → FieldVal
  | tagList : List (List String) → FieldVal
deriving Repr, DecidableEq

/-- Record emitted per event by the feed resource reads
(`createFeedResourceTemplate.readCallback` and `FeedResource`): id and
signature are never included. -/
def formatFeedRecord (e : SourceEvent) : List (String × FieldVal) :=
  [("created_at", FieldVal.num e.created_at),
   ("content", FieldVal.str e.content),
   ("kind", FieldVal.num e.kind),
   ("pubkey", FieldVal.str e.pubkey),
   ("tags", FieldVal.tagList e.tags)]

/-- Record emitted per notification by the notifications resource read
(`createNotificationsResourceTemplate.readCallback`).  The source spells
`id: n.id`, but `JSON.stringify` omits keys whose value is `undefined`,
so the serialized NDJSON record carries an `id` field exactly when the
notification has one. -/
def formatNotificationRecord (n : NotificationEvent) : List (String × FieldVal) :=
  [("created_at", FieldVal.num n.created_at),
   ("content", FieldVal.str n.content),
   ("kind", FieldVal.num n.kind),
   ("pubkey", FieldVal.str n.pubkey),
   ("tags", FieldVal.tagList n.tags)] ++
  (match n.id with
   | some i => [("id", FieldVal.str i)]
   | none => [])

/-- Embedding of the notifications resource read: retrieve with the
query-parameter limit (default 50) and optional since bound, and format
each notification as an NDJSON record. -/
def notificationsRead (svc : NotificationService) (limit : Nat)
    (since : Option Nat) : List (List (String × FieldVal)) :=
  (svc.getNotifications { limit := some limit, since := since }).map
    formatNotificationRecord

/-- Decidable equality of `Except` results, used to evaluate manager
operations in concrete scenarios. -/
instance instDecEqExcept {ε α : Type} [DecidableEq ε] [DecidableEq α] :
    DecidableEq (Except ε α) := fun a b => by
  cases a with
  | error x =>
      cases b with
      | error y =>
          exact if h : x = y then isTrue (by rw [h])
            else isFalse (by intro hc; injection hc; exact h (by assumption))
      | ok y => exact isFalse (by intro hc; exact Except.noConfusion hc)
  | ok x =>
      cases b with
      | error y => exact isFalse (by intro hc; exact Except.noConfusion hc)
      | ok y =>
          exact if h : x = y then isTrue (by rw [h])
            else isFalse (by intro hc; injection hc; exact h (by assumption))

/-! ## Concrete instances used by scenario claims and witnesses -/

/-- Notification carrying discriminator key `k1` (eviction scenario). -/
def c2k1 : NotificationEvent :=
  { pubkey := "p1", created_at := 1, kind := 1616, tags := [["d", "k1"]], content := "n1" }

/-- Notification carrying discriminator key `k2` (eviction scenario). -/
def c2k2 : NotificationEvent :=
  { pubkey := "p2", created_at := 2, kind := 1616, tags := [["d", "k2"]], content := "n2" }

/-- Notification carrying discriminator key `k3` (eviction scenario). -/
def c2k3 : NotificationEvent :=
  { pubkey := "p3", created_at := 3, kind := 1616, tags := [["d", "k3"]], content := "n3" }

/-- Stored notification for the retrieve counterexample. -/
def c8n : NotificationEvent :=
  { pubkey := "z", created_at := 5, kind := 1616, tags := [["d", "key8"]], content := "x" }

/-- Storage holding exactly `c8n`. -/
def c8Storage : NotificationStorage := (emptyStorage 10).store c8n

/-- Notification stored before the reconnection counterexample runs. -/
def c1n : NotificationEvent :=
  { pubkey := "q", created_at := 50, kind := 1616, tags := [["d", "dk"]], content := "c" }

/-- Active service for identity `P` with five processed events and one
stored notification. -/
def c1Svc : NotificationService :=
  { agentPubkey := "P"
    subscription := some { pTags := ["P"], since := 10 }
    storage := (emptyStorage 1000).store c1n
    eventCount := 5
    startTime := 10 }

/-- Manager monitoring exactly identity `P` via `c1Svc`. -/
def c1Mgr : SubscriptionManager := { services := [("P", c1Svc)] }

/-- Root event `R` of the legacy-chain scenario (no tags). -/
def evR : SourceEvent :=
  { id := "R", pubkey := "pr", kind := 1, created_at := 1, content := "root", tags := [] }

/-- Reply `A` of the legacy-chain scenario, single tag `["e", R]`. -/
def evA : SourceEvent :=
  { id := "A", pubkey := "pa", kind := 1, created_at := 2, content := "a",
    tags := [["e", "R"]] }

/-- Reply `B` of the legacy-chain scenario, two unmarked tags
`["e", R], ["e", A]`. -/
def evB : SourceEvent :=
  { id := "B", pubkey := "pb", kind := 1, created_at := 3, content := "b",
    tags := [["e", "R"], ["e", "A"]] }

/-- Event pool of the legacy-chain scenario. -/
def threadDemoDb : List SourceEvent := [evR, evA, evB]

/-- Event `X` of the resolver cycle scenario: embeds a reference to `Y`. -/
def rsvX : SourceEvent :=
  { id := "x", pubkey := "xk", kind := 1, created_at := 11,
    content := "see nostr:ny", tags := [] }

/-- Event `Y` of the resolver cycle scenario: embeds a reference back to `X`. -/
def rsvY : SourceEvent :=
  { id := "y", pubkey := "yk", kind := 1, created_at := 22,
    content := "back nostr:nx", tags := [] }

/-- Cyclic network for the resolver scenario: `nostr:ny` resolves to `Y`
and `nostr:nx` back to `X`. -/
def rsvEnv : ResolveEnv :=
  { events := [("nostr:ny", rsvY), ("nostr:nx", rsvX)]
    profiles := [("xk", "Xavier"), ("yk", "Yve")]
    npubDecode := []
    npubEncode := [] }

/-! ## Helper lemmas -/

theorem string_ne_empty_of_length_pos {s : String} (h : 0 < s.length) : s ≠ "" := by
  intro he
  subst he
  simp at h

theorem generateDTag_ne_empty (sourceEventId agentPubkey : String) :
    generateDTag sourceEventId agentPubkey ≠ "" := by
  apply string_ne_empty_of_length_pos
  unfold generateDTag
  simp only [String.length_append]
  have : "notification-".length = 13 := rfl
  omega

theorem fallbackKey_ne_empty (c : Nat) (p : String) :
    toString c ++ "-" ++ p ≠ "" := by
  apply string_ne_empty_of_length_pos
  simp only [String.length_append]
  have : "-".length = 1 := rfl
  omega

theorem generateKey_ne_empty (n : NotificationEvent) : generateKey n ≠ "" := by
  unfold generateKey
  cases h : (n.tags.find? (fun t => t.get? 0 == some "d")).bind (fun t => t.get? 1) with
  | none => exact fallbackKey_ne_empty n.created_at n.pubkey
  | some v =>
      by_cases hv : v = ""
      · simp [hv]
        exact fallbackKey_ne_empty n.created_at n.pubkey
      · simp [hv]

section JsMapLemmas

variable {α : Type}

theorem jsMapHas_iff (k : String) (m : List (String × α)) :
    jsMapHas k m = true ↔ k ∈ m.map Prod.fst := by
  simp [jsMapHas, List.any_eq_true, List.mem_map]

theorem jsMapSet_fst_of_mem {k : String} (v : α) {m : List (String × α)}
    (h : k ∈ m.map Prod.fst) : (jsMapSet k v m).map Prod.fst = m.map Prod.fst := by
  induction m with
  | nil => simp at h
  | cons p rest ih =>
      simp only [List.map_cons] at h
      by_cases he : p.1 = k
      · cases p
        simp_all [jsMapSet]
      · cases p with
        | mk k' v' =>
          simp only at he
          have : k ∈ rest.map Prod.fst := by
            rcases List.mem_cons.mp h with h1 | h2
            · exact absurd h1.symm he
            · exact h2
          simp [jsMapSet, he, ih this]

theorem jsMapSet_fst_of_not_mem {k : String} (v : α) {m : List (String × α)}
    (h : k ∉ m.map Prod.fst) :
    (jsMapSet k v m).map Prod.fst = m.map Prod.fst ++ [k] := by
  induction m with
  | nil => simp [jsMapSet]
  | cons p rest ih =>
      cases p with
      | mk k' v' =>
        simp only [List.map_cons, List.mem_cons] at h
        push_neg at h
        have hne : k' ≠ k := fun he => h.1 he.symm
        simp [jsMapSet, hne, ih h.2]

theorem jsMapGet_set_self (k : String) (v : α) (m : List (String × α)) :
    jsMapGet k (jsMapSet k v m) = some v := by
  induction m with
  | nil => simp [jsMapGet, jsMapSet, List.find?]
  | cons p rest ih =>
      cases p with
      | mk k' v' =>
        by_cases he : k' = k
        · simp [jsMapSet, jsMapGet, he, List.find?]
        · have hb : (k' == k) = false := beq_eq_false_iff_ne.mpr he
          simp only [jsMapSet, hb, Bool.false_eq_true, if_false, jsMapGet, List.find?]
          simpa [jsMapGet] using ih

theorem jsMapGet_set_ne {k' : String} (k : String) (v : α) (m : List (String × α))
    (h : k' ≠ k) : jsMapGet k (jsMapSet k' v m) = jsMapGet k m := by
  have hb : (k' == k) = false := beq_eq_false_iff_ne.mpr h
  induction m with
  | nil => simp [jsMapGet, jsMapSet, List.find?, hb]
  | cons p rest ih =>
      cases p with
      | mk k0 v0 =>
        by_cases he : k0 = k'
        · subst he
          simp only [jsMapSet, beq_self_eq_true, if_true]
          simp [jsMapGet, List.find?, hb]
        · have hb0 : (k0 == k') = false := beq_eq_false_iff_ne.mpr he
          simp only [jsMapSet, hb0, Bool.false_eq_true, if_false]
          by_cases hk : k0 = k
          · simp [jsMapGet, List.find?, hk]
          · have hbk : (k0 == k) = false := beq_eq_false_iff_ne.mpr hk
            simp only [jsMapGet, List.find?, hbk]
            simpa [jsMapGet] using ih

theorem jsMapSet_mem {p : String × α} {k : String} {v : α} {m : List (String × α)}
    (h : p ∈ jsMapSet k v m) : p = (k, v) ∨ p ∈ m := by
  induction m with
  | nil => simp [jsMapSet] at h; simp [h]
  | cons q rest ih =>
      cases q with
      | mk k' v' =>
        simp only [jsMapSet] at h
        by_cases he : k' = k
        · rw [if_pos (by simp [he])] at h
          rcases List.mem_cons.mp h with h1 | h2
          · exact Or.inl h1
          · exact Or.inr (List.mem_cons_of_mem _ h2)
        · rw [if_neg (by simp [he])] at h
          rcases List.mem_cons.mp h with h1 | h2
          · exact Or.inr (h1 ▸ List.mem_cons_self _ _)
          · rcases ih h2 with h3 | h4
            · exact Or.inl h3
            · exact Or.inr (List.mem_cons_of_mem _ h4)

theorem jsMapDelete_mem {p : String × α} {k : String} {m : List (String × α)}
    (h : p ∈ jsMapDelete k m) : p ∈ m := by
  induction m with
  | nil => simp [jsMapDelete] at h
  | cons q rest ih =>
      cases q with
      | mk k' v' =>
        simp only [jsMapDelete] at h
        by_cases he : k' = k
        · rw [if_pos (by simp [he])] at h
          exact List.mem_cons_of_mem _ h
        · rw [if_neg (by simp [he])] at h
          rcases List.mem_cons.mp h with h1 | h2
          · exact h1 ▸ List.mem_cons_self _ _
          · exact List.mem_cons_of_mem _ (ih h2)

end JsMapLemmas

/-! ## Storage lemmas -/

theorem pruneLoop_mem {maxSize : Nat} {p : String × NotificationEvent} :
    ∀ (order : List String) (map : List (String × NotificationEvent)),
    p ∈ (pruneLoop maxSize order map).2 → p ∈ map := by
  intro order
  induction order with
  | nil => intro map h; simpa [pruneLoop] using h
  | cons k rest ih =>
      intro map h
      simp only [pruneLoop] at h
      by_cases hlen : rest.length + 1 > maxSize
      · rw [if_pos hlen] at h
        by_cases hk : k ≠ ""
        · rw [if_pos hk] at h
          exact jsMapDelete_mem (ih _ h)
        · rw [if_neg hk] at h
          exact ih _ h
      · rw [if_neg hlen] at h
        exact h

theorem pruneLoop_wf (maxSize : Nat) :
    ∀ (map : List (String × NotificationEvent)),
    (∀ k ∈ map.map Prod.fst, k ≠ "") →
    pruneLoop maxSize (map.map Prod.fst) map =
      ((map.map Prod.fst).drop (map.length - maxSize),
       map.drop (map.length - maxSize)) := by
  intro map
  induction map with
  | nil => intro _; simp [pruneLoop]
  | cons q rest ih =>
      intro hne
      cases q with
      | mk k v =>
        simp only [List.map_cons, pruneLoop, List.length_map, List.length_cons]
        by_cases hlen : rest.length + 1 > maxSize
        · rw [if_pos hlen]
          have hk : k ≠ "" := hne k (by simp)
          rw [if_pos hk]
          have hdel : jsMapDelete k ((k, v) :: rest) = rest := by
            simp [jsMapDelete]
          rw [hdel, ih (fun k' hk' => hne k' (by simp [hk']))]
          have harith : rest.length + 1 - maxSize = (rest.length - maxSize) + 1 := by omega
          rw [harith]
          simp [List.drop_succ_cons]
        · rw [if_neg hlen]
          have h0 : rest.length + 1 - maxSize = 0 := by omega
          rw [h0]
          simp

/-- Lemma for `prune` when the order list is exactly the map's key
sequence: the loop drops the same (oldest) prefix from both. -/
theorem prune_of_sync (map : List (String × NotificationEvent)) (maxSize : Nat)
    (hne : ∀ k ∈ map.map Prod.fst, k ≠ "") :
    NotificationStorage.prune
      { notifications := map, maxSize := maxSize,
        notificationOrder := map.map Prod.fst } =
      { notifications := map.drop (map.length - maxSize), maxSize := maxSize,
        notificationOrder := (map.map Prod.fst).drop (map.length - maxSize) } := by
  unfold NotificationStorage.prune
  rw [pruneLoop_wf maxSize map hne]

/-- Characterization of `store` on a well-formed storage: the result
keeps the suffix of the updated insertion order that fits the capacity,
with the map and the order list still in sync. -/
theorem store_eq (s : NotificationStorage) (n : NotificationEvent) (hwf : StorageWf s) :
    s.store n =
      { notifications := (jsMapSet (generateKey n) n s.notifications).drop
          ((jsMapSet (generateKey n) n s.notifications).length - s.maxSize)
        maxSize := s.maxSize
        notificationOrder :=
          (if jsMapHas (generateKey n) s.notifications then s.notificationOrder
           else s.notificationOrder ++ [generateKey n]).drop
            ((jsMapSet (generateKey n) n s.notifications).length - s.maxSize) } ∧
    StorageWf (s.store n) := by
  obtain ⟨hord, hnd, hne⟩ := hwf
  have hkne : generateKey n ≠ "" := generateKey_ne_empty n
  have hsync :
      (if jsMapHas (generateKey n) s.notifications then s.notificationOrder
       else s.notificationOrder ++ [generateKey n]) =
      (jsMapSet (generateKey n) n s.notifications).map Prod.fst := by
    by_cases hhas : jsMapHas (generateKey n) s.notifications = true
    · rw [if_pos hhas, jsMapSet_fst_of_mem n ((jsMapHas_iff _ _).mp hhas)]
      exact hord
    · have hnm : generateKey n ∉ s.notifications.map Prod.fst :=
        fun hc => hhas ((jsMapHas_iff _ _).mpr hc)
      rw [if_neg hhas, jsMapSet_fst_of_not_mem n hnm, hord]
  have hne' : ∀ k ∈ (jsMapSet (generateKey n) n s.notifications).map Prod.fst, k ≠ "" := by
    rw [← hsync]
    intro k hk
    by_cases hhas : jsMapHas (generateKey n) s.notifications = true
    · rw [if_pos hhas] at hk
      exact hne k hk
    · rw [if_neg hhas] at hk
      rcases List.mem_append.mp hk with h1 | h2
      · exact hne k h1
      · rw [List.mem_singleton.mp h2]
        exact hkne
  have hnd' : ((jsMapSet (generateKey n) n s.notifications).map Prod.fst).Nodup := by
    rw [← hsync]
    by_cases hhas : jsMapHas (generateKey n) s.notifications = true
    · rw [if_pos hhas]
      exact hnd
    · rw [if_neg hhas]
      have hnm : generateKey n ∉ s.notificationOrder := by
        rw [hord]
        exact fun hc => hhas ((jsMapHas_iff _ _).mpr hc)
      refine List.Nodup.append hnd (List.nodup_singleton _) ?_
      intro a ha1 ha2
      rw [List.mem_singleton.mp ha2] at ha1
      exact hnm ha1
  have hmain : s.store n =
      { notifications := (jsMapSet (generateKey n) n s.notifications).drop
          ((jsMapSet (generateKey n) n s.notifications).length - s.maxSize)
        maxSize := s.maxSize
        notificationOrder :=
          (if jsMapHas (generateKey n) s.notifications then s.notificationOrder
           else s.notificationOrder ++ [generateKey n]).drop
            ((jsMapSet (generateKey n) n s.notifications).length - s.maxSize) } := by
    show NotificationStorage.prune
        { notifications := jsMapSet (generateKey n) n s.notifications
          maxSize := s.maxSize
          notificationOrder :=
            if jsMapHas (generateKey n) s.notifications then s.notificationOrder
            else s.notificationOrder ++ [generateKey n] } = _
    rw [hsync, prune_of_sync _ s.maxSize hne']
  refine ⟨hmain, ?_⟩
  rw [hmain]
  refine ⟨?_, ?_, ?_⟩
  · show (if jsMapHas (generateKey n) s.notifications then s.notificationOrder
       else s.notificationOrder ++ [generateKey n]).drop
        ((jsMapSet (generateKey n) n s.notifications).length - s.maxSize) =
      ((jsMapSet (generateKey n) n s.notifications).drop
        ((jsMapSet (generateKey n) n s.notifications).length - s.maxSize)).map Prod.fst
    rw [hsync, List.map_drop]
  · show ((if jsMapHas (generateKey n) s.notifications then s.notificationOrder
       else s.notificationOrder ++ [generateKey n]).drop
        ((jsMapSet (generateKey n) n s.notifications).length - s.maxSize)).Nodup
    rw [hsync]
    exact List.Nodup.sublist (List.drop_sublist _ _) hnd'
  · intro k hk
    show k ≠ ""
    rw [hsync] at hk
    exact hne' k (List.mem_of_mem_drop hk)

/-! ## Sorting lemmas -/

theorem mem_insertByCreatedDesc {a x : NotificationEvent} :
    ∀ {l : List NotificationEvent},
    a ∈ insertByCreatedDesc x l ↔ a = x ∨ a ∈ l := by
  intro l
  induction l with
  | nil => simp [insertByCreatedDesc]
  | cons b rest ih =>
      by_cases hgt : b.created_at > x.created_at
      · simp only [insertByCreatedDesc, if_pos hgt, List.mem_cons, ih]
        tauto
      · simp only [insertByCreatedDesc, if_neg hgt, List.mem_cons]

theorem mem_sortByCreatedDesc {a : NotificationEvent} :
    ∀ {l : List NotificationEvent}, a ∈ sortByCreatedDesc l ↔ a ∈ l := by
  intro l
  induction l with
  | nil => simp [sortByCreatedDesc]
  | cons b rest ih =>
      simp only [sortByCreatedDesc, mem_insertByCreatedDesc, List.mem_cons, ih]

theorem sorted_insertByCreatedDesc {x : NotificationEvent} :
    ∀ {l : List NotificationEvent},
    l.Pairwise (fun a b => b.created_at ≤ a.created_at) →
    (insertByCreatedDesc x l).Pairwise (fun a b => b.created_at ≤ a.created_at) := by
  intro l
  induction l with
  | nil => intro _; simp [insertByCreatedDesc]
  | cons b rest ih =>
      intro hp
      rw [List.pairwise_cons] at hp
      by_cases hgt : b.created_at > x.created_at
      · rw [insertByCreatedDesc, if_pos hgt, List.pairwise_cons]
        refine ⟨?_, ih hp.2⟩
        intro c hc
        rcases mem_insertByCreatedDesc.mp hc with h1 | h2
        · rw [h1]; omega
        · exact hp.1 c h2
      · rw [insertByCreatedDesc, if_neg hgt, List.pairwise_cons]
        refine ⟨?_, List.pairwise_cons.mpr hp⟩
        intro c hc
        rcases List.mem_cons.mp hc with h1 | h2
        · rw [h1]; omega
        · have := hp.1 c h2
          omega

theorem sorted_sortByCreatedDesc :
    ∀ (l : List NotificationEvent),
    (sortByCreatedDesc l).Pairwise (fun a b => b.created_at ≤ a.created_at) := by
  intro l
  induction l with
  | nil => simp [sortByCreatedDesc]
  | cons b rest ih => exact sorted_insertByCreatedDesc ih

/-- Membership in a `retrieve` result implies membership among the
stored values. -/
theorem mem_of_mem_applyLimit {n : NotificationEvent} {limit : Option Nat}
    {l : List NotificationEvent} (h : n ∈ applyLimit limit l) : n ∈ l := by
  cases limit with
  | none => exact h
  | some l0 =>
      by_cases h0 : l0 ≠ 0
      · rw [applyLimit, if_pos h0] at h
        exact List.take_subset l0 l h
      · rw [applyLimit, if_neg h0] at h
        exact h

theorem mem_of_mem_applyUntil {n : NotificationEvent} {u : Option Nat}
    {l : List NotificationEvent} (h : n ∈ applyUntil u l) : n ∈ l := by
  cases u with
  | none => exact h
  | some v =>
      by_cases h0 : v ≠ 0
      · rw [applyUntil, if_pos h0] at h
        exact List.mem_of_mem_filter h
      · rw [applyUntil, if_neg h0] at h
        exact h

theorem mem_of_mem_applySince {n : NotificationEvent} {u : Option Nat}
    {l : List NotificationEvent} (h : n ∈ applySince u l) : n ∈ l := by
  cases u with
  | none => exact h
  | some v =>
      by_cases h0 : v ≠ 0
      · rw [applySince, if_pos h0] at h
        exact List.mem_of_mem_filter h
      · rw [applySince, if_neg h0] at h
        exact h

/-- Membership in a `retrieve` result implies membership among the
stored values. -/
theorem mem_of_mem_retrieve {n : NotificationEvent} {s : NotificationStorage}
    {f : NotificationFilter} (h : n ∈ s.retrieve f) :
    n ∈ s.notifications.map Prod.snd := by
  unfold NotificationStorage.retrieve at h
  exact mem_of_mem_applySince (mem_of_mem_applyUntil
    (mem_sortByCreatedDesc.mp (mem_of_mem_applyLimit h)))

theorem mem_applySince_iff {n : NotificationEvent} {u : Option Nat}
    {l : List NotificationEvent} :
    n ∈ applySince u l ↔
      n ∈ l ∧ (∀ v, u = some v → v ≠ 0 → v ≤ n.created_at) := by
  cases u with
  | none => simp [applySince]
  | some v =>
      by_cases h0 : v ≠ 0
      · rw [applySince, if_pos h0]
        simp [List.mem_filter, h0]
      · rw [applySince, if_neg h0]
        rw [not_not] at h0
        simp [h0]

theorem mem_applyUntil_iff {n : NotificationEvent} {u : Option Nat}
    {l : List NotificationEvent} :
    n ∈ applyUntil u l ↔
      n ∈ l ∧ (∀ v, u = some v → v ≠ 0 → n.created_at ≤ v) := by
  cases u with
  | none => simp [applyUntil]
  | some v =>
      by_cases h0 : v ≠ 0
      · rw [applyUntil, if_pos h0]
        simp [List.mem_filter, h0]
      · rw [applyUntil, if_neg h0]
        rw [not_not] at h0
        simp [h0]

theorem sorted_retrieve (s : NotificationStorage) (f : NotificationFilter) :
    (s.retrieve f).Pairwise (fun a b => b.created_at ≤ a.created_at) := by
  unfold NotificationStorage.retrieve
  have hs := sorted_sortByCreatedDesc
    (applyUntil f.until_ (applySince f.since (s.notifications.map Prod.snd)))
  cases f.limit with
  | none => exact hs
  | some l0 =>
      by_cases h0 : l0 ≠ 0
      · rw [applyLimit, if_pos h0]
        exact List.Pairwise.sublist (List.take_sublist _ _) hs
      · rw [applyLimit, if_neg h0]
        exact hs

theorem mem_retrieve_nolimit_iff (s : NotificationStorage) (f : NotificationFilter)
    (n : NotificationEvent) :
    n ∈ s.retrieve { f with limit := none } ↔
      (n ∈ s.notifications.map Prod.snd ∧
       (∀ v, f.since = some v → v ≠ 0 → v ≤ n.created_at) ∧
       (∀ v, f.until_ = some v → v ≠ 0 → n.created_at ≤ v)) := by
  show n ∈ applyLimit none _ ↔ _
  rw [applyLimit, mem_sortByCreatedDesc, mem_applyUntil_iff, mem_applySince_iff]
  tauto

/-- Evaluation of `generateKey` on a built notification: the `"d"` tag
is found and its deterministic value is nonempty, so no fallback key is
used. -/
theorem generateKey_build (e : SourceEvent) (w : String) (t : Nat) :
    generateKey (buildNotificationEvent e w t) = generateDTag e.id w := by
  have he : (some "e" == some "d") = false := by decide
  have hp : (some "p" == some "d") = false := by decide
  have hk : (some "k" == some "d") = false := by decide
  have hd : (some "d" == some "d") = true := by decide
  unfold generateKey buildNotificationEvent
  simp only [List.find?, List.get?, he, hp, hk, hd, Option.bind]
  rw [if_pos (generateDTag_ne_empty e.id w)]

/-- Storing into an empty storage of positive capacity yields the
one-entry storage under the notification's key. -/
theorem store_single (cap : Nat) (hcap : 1 ≤ cap) (n : NotificationEvent) :
    (emptyStorage cap).store n =
      { notifications := [(generateKey n, n)], maxSize := cap,
        notificationOrder := [generateKey n] } := by
  unfold NotificationStorage.store emptyStorage NotificationStorage.prune
  simp only [jsMapHas, jsMapSet, List.any_nil, pruneLoop]
  rw [if_neg (by simp; omega)]

/-- Re-storing under the same key into a one-entry storage of positive
capacity updates the value in place. -/
theorem store_update (cap : Nat) (hcap : 1 ≤ cap) (key : String)
    (n1 n2 : NotificationEvent) (h2 : generateKey n2 = key) :
    NotificationStorage.store
      { notifications := [(key, n1)], maxSize := cap, notificationOrder := [key] } n2 =
      { notifications := [(key, n2)], maxSize := cap, notificationOrder := [key] } := by
  unfold NotificationStorage.store NotificationStorage.prune
  simp only [h2, jsMapHas, jsMapSet, List.any_cons, List.any_nil,
    beq_self_eq_true, Bool.true_or, Bool.or_false, if_true, pruneLoop]
  rw [if_neg (by simp; omega)]

/-! ## Claim theorems -/

/-- C2: for every `store()` call on a well-formed Notification Store,
`size() <= capacity` holds afterwards, well-formedness is preserved, the
surviving keys are exactly the newest-inserted suffix of the insertion
order (so the evicted keys are always the least-recently-inserted ones,
with updates of an existing key not moving it in eviction order), and in
the concrete capacity-2 scenario storing keys k1, k2, k3 leaves size 2
with k1 absent and k2, k3 present. -/
theorem C2_bounded_store (s : NotificationStorage) (n : NotificationEvent)
    (hwf : StorageWf s) :
    StorageWf (s.store n) ∧
    (s.store n).size ≤ s.maxSize ∧
    ((s.store n).notifications.map Prod.fst =
      (if jsMapHas (generateKey n) s.notifications then s.notificationOrder
       else s.notificationOrder ++ [generateKey n]).drop
        ((jsMapSet (generateKey n) n s.notifications).length - s.maxSize)) ∧
    ((((emptyStorage 2).store c2k1).store c2k2).store c2k3).size = 2 ∧
    jsMapGet "k1" ((((emptyStorage 2).store c2k1).store c2k2).store c2k3).notifications
      = none ∧
    jsMapGet "k2" ((((emptyStorage 2).store c2k1).store c2k2).store c2k3).notifications
      = some c2k2 ∧
    jsMapGet "k3" ((((emptyStorage 2).store c2k1).store c2k2).store c2k3).notifications
      = some c2k3 := by
  obtain ⟨hmain, hwf'⟩ := store_eq s n hwf
  refine ⟨hwf', ?_, ?_, by decide, by decide, by decide, by decide⟩
  · rw [hmain]
    show ((jsMapSet (generateKey n) n s.notifications).drop _).length ≤ s.maxSize
    rw [List.length_drop]
    omega
  · obtain ⟨hord', _, _⟩ := hwf'
    rw [← hord', hmain]

/-- Witness for C2 at a concrete storage and notification. -/
theorem C2_bounded_store_wit :
    StorageWf (emptyStorage 2) ∧
    StorageWf ((emptyStorage 2).store c2k1) ∧
    ((emptyStorage 2).store c2k1).size ≤ (emptyStorage 2).maxSize :=
  ⟨by decide, (C2_bounded_store (emptyStorage 2) c2k1 (by decide)).1,
    (C2_bounded_store (emptyStorage 2) c2k1 (by decide)).2.1⟩

/-- C6: the discriminator (`"d"`) tag of a built notification is the
deterministic function `generateDTag` of the source event id and the
first 8 characters of the watched identity, independent of construction
time; hence building twice and storing both results leaves exactly one
entry in the store, keyed by that discriminator and holding the second
build. -/
theorem C6_idempotent_key (e : SourceEvent) (w : String) (t1 t2 cap : Nat)
    (hcap : 1 ≤ cap) :
    generateKey (buildNotificationEvent e w t1) = generateDTag e.id w ∧
    generateKey (buildNotificationEvent e w t2) = generateDTag e.id w ∧
    (((emptyStorage cap).store (buildNotificationEvent e w t1)).store
        (buildNotificationEvent e w t2)).notifications =
      [(generateDTag e.id w, buildNotificationEvent e w t2)] ∧
    (((emptyStorage cap).store (buildNotificationEvent e w t1)).store
        (buildNotificationEvent e w t2)).size = 1 := by
  have h1 := generateKey_build e w t1
  have h2 := generateKey_build e w t2
  have hs1 : (emptyStorage cap).store (buildNotificationEvent e w t1) =
      { notifications := [(generateDTag e.id w, buildNotificationEvent e w t1)],
        maxSize := cap, notificationOrder := [generateDTag e.id w] } := by
    rw [store_single cap hcap, h1]
  have hs2 := store_update cap hcap (generateDTag e.id w)
    (buildNotificationEvent e w t1) (buildNotificationEvent e w t2) h2
  refine ⟨h1, h2, ?_, ?_⟩
  · rw [hs1, hs2]
  · rw [hs1, hs2]
    rfl

/-- Witness for C6 at a concrete source event, identity and times. -/
theorem C6_idempotent_key_wit :
    generateKey (buildNotificationEvent evA "agentkey123" 7) =
      generateDTag evA.id "agentkey123" ∧
    generateKey (buildNotificationEvent evA "agentkey123" 9) =
      generateDTag evA.id "agentkey123" ∧
    (((emptyStorage 1000).store (buildNotificationEvent evA "agentkey123" 7)).store
        (buildNotificationEvent evA "agentkey123" 9)).notifications =
      [(generateDTag evA.id "agentkey123", buildNotificationEvent evA "agentkey123" 9)] ∧
    (((emptyStorage 1000).store (buildNotificationEvent evA "agentkey123" 7)).store
        (buildNotificationEvent evA "agentkey123" 9)).size = 1 :=
  C6_idempotent_key evA "agentkey123" 7 9 1000 (by omega)

/-- C8 counterexample: the claim demands that `limit` truncate after
sorting for EVERY filter, so a filter with `limit = 0` should return no
entries; the code's JS-truthiness test `if (filters.limit)` skips a zero
limit and returns the stored notification. -/
theorem C8_retrieve_cex :
    c8Storage.retrieve { since := none, until_ := none, limit := some 0 } = [c8n] ∧
    (c8Storage.retrieve { since := none, until_ := none, limit := some 0 }).length
      = 1 := by decide

/-- C8 amended: with a present since/until/limit honored only when
nonzero (a zero value is skipped by JS truthiness), `retrieve` returns
exactly the stored notifications within the inclusive bounds, sorted
newest-first by `created_at`, and a present nonzero limit truncates
after sorting. -/
theorem C8_retrieve_amended (s : NotificationStorage) (f : NotificationFilter)
    (n : NotificationEvent) :
    (n ∈ s.retrieve { f with limit := none } ↔
      (n ∈ s.notifications.map Prod.snd ∧
       (∀ v, f.since = some v → v ≠ 0 → v ≤ n.created_at) ∧
       (∀ v, f.until_ = some v → v ≠ 0 → n.created_at ≤ v))) ∧
    (s.retrieve f).Pairwise (fun a b => b.created_at ≤ a.created_at) ∧
    (∀ l0, f.limit = some l0 → l0 ≠ 0 →
      s.retrieve f = (s.retrieve { f with limit := none }).take l0) := by
  refine ⟨mem_retrieve_nolimit_iff s f n, sorted_retrieve s f, ?_⟩
  intro l0 hl h0
  show applyLimit f.limit _ = (applyLimit none _).take l0
  rw [hl, applyLimit, applyLimit, if_pos h0]

/-- Witness for C8 amended at a concrete storage and filter. -/
theorem C8_retrieve_amended_wit :
    (c8n ∈ c8Storage.retrieve { since := some 2, until_ := some 9, limit := none } ↔
      (c8n ∈ c8Storage.notifications.map Prod.snd ∧
       (∀ v, (some 2 : Option Nat) = some v → v ≠ 0 → v ≤ c8n.created_at) ∧
       (∀ v, (some 9 : Option Nat) = some v → v ≠ 0 → c8n.created_at ≤ v))) ∧
    (c8Storage.retrieve { since := some 2, until_ := some 9, limit := some 1 }).Pairwise
      (fun a b => b.created_at ≤ a.created_at) ∧
    (∀ l0, (some 1 : Option Nat) = some l0 → l0 ≠ 0 →
      c8Storage.retrieve { since := some 2, until_ := some 9, limit := some 1 } =
        (c8Storage.retrieve { since := some 2, until_ := some 9, limit := none }).take l0) :=
  C8_retrieve_amended c8Storage { since := some 2, until_ := some 9, limit := some 1 } c8n

/-- Starting monitoring on a fresh service always succeeds and produces
exactly the fresh started service. -/
theorem startMonitoring_new (pk : String) (now : Nat) :
    (NotificationService.new pk 1000).startMonitoring now =
      Except.ok (freshStartedService pk now) := rfl

theorem jsMapGet_mem {α : Type} {k : String} {v : α} {m : List (String × α)}
    (h : jsMapGet k m = some v) : (k, v) ∈ m := by
  unfold jsMapGet at h
  cases hf : m.find? (fun p => p.1 == k) with
  | none => rw [hf] at h; simp at h
  | some q =>
      rw [hf] at h
      have hq := List.find?_some hf
      have hm := List.mem_of_find?_eq_some hf
      cases q with
      | mk a b =>
        have hb : b = v := by simpa using h
        have ha : a = k := by simpa using hq
        rw [← ha, ← hb]
        exact hm

theorem handleReconnectionGo_preserve (now : Nat) :
    ∀ (l acc : List (String × NotificationService)) (pk : String),
    pk ∉ l.map Prod.fst →
    ∃ r, handleReconnectionGo now l acc = Except.ok r ∧
      jsMapGet pk r = jsMapGet pk acc := by
  intro l
  induction l with
  | nil => intro acc pk _; exact ⟨acc, rfl, rfl⟩
  | cons p rest ih =>
      intro acc pk hn
      cases p with
      | mk pk' old =>
        simp only [List.map_cons, List.mem_cons] at hn
        push_neg at hn
        by_cases hm : old.isMonitoring = true
        · have hstep : handleReconnectionGo now ((pk', old) :: rest) acc =
              handleReconnectionGo now rest
                (jsMapSet pk' (freshStartedService pk' now) acc) := by
            simp only [handleReconnectionGo, hm, if_true, startMonitoring_new]
          obtain ⟨r, hgo, hget⟩ :=
            ih (jsMapSet pk' (freshStartedService pk' now) acc) pk hn.2
          refine ⟨r, by rw [hstep]; exact hgo, ?_⟩
          rw [hget,
            jsMapGet_set_ne pk (freshStartedService pk' now) acc (fun he => hn.1 he.symm)]
        · have hstep : handleReconnectionGo now ((pk', old) :: rest) acc =
              handleReconnectionGo now rest acc := by
            simp only [handleReconnectionGo]
            rw [if_neg hm]
          obtain ⟨r, hgo, hget⟩ := ih acc pk hn.2
          exact ⟨r, by rw [hstep]; exact hgo, hget⟩

theorem handleReconnectionGo_active (now : Nat) :
    ∀ (l acc : List (String × NotificationService)) (pk : String)
      (svc : NotificationService),
    (l.map Prod.fst).Nodup → (pk, svc) ∈ l → svc.subscription.isSome = true →
    ∃ r, handleReconnectionGo now l acc = Except.ok r ∧
      jsMapGet pk r = some (freshStartedService pk now) := by
  intro l
  induction l with
  | nil => intro acc pk svc _ hmem _; simp at hmem
  | cons p rest ih =>
      intro acc pk svc hnd hmem hact
      cases p with
      | mk pk' old =>
        simp only [List.map_cons, List.nodup_cons] at hnd
        rcases List.mem_cons.mp hmem with heq | hrest
        · have hpk : pk = pk' := congrArg Prod.fst heq
          have hold : svc = old := congrArg Prod.snd heq
          subst hpk
          subst hold
          have hm : svc.isMonitoring = true := hact
          have hstep : handleReconnectionGo now ((pk, svc) :: rest) acc =
              handleReconnectionGo now rest
                (jsMapSet pk (freshStartedService pk now) acc) := by
            simp only [handleReconnectionGo, hm, if_true, startMonitoring_new]
          obtain ⟨r, hgo, hget⟩ := handleReconnectionGo_preserve now rest
            (jsMapSet pk (freshStartedService pk now) acc) pk hnd.1
          refine ⟨r, by rw [hstep]; exact hgo, ?_⟩
          rw [hget, jsMapGet_set_self]
        · by_cases hm : old.isMonitoring = true
          · have hstep : handleReconnectionGo now ((pk', old) :: rest) acc =
                handleReconnectionGo now rest
                  (jsMapSet pk' (freshStartedService pk' now) acc) := by
              simp only [handleReconnectionGo, hm, if_true, startMonitoring_new]
            obtain ⟨r, hgo, hget⟩ :=
              ih (jsMapSet pk' (freshStartedService pk' now) acc) pk svc hnd.2 hrest hact
            exact ⟨r, by rw [hstep]; exact hgo, hget⟩
          · have hstep : handleReconnectionGo now ((pk', old) :: rest) acc =
                handleReconnectionGo now rest acc := by
              simp only [handleReconnectionGo]
              rw [if_neg hm]
            obtain ⟨r, hgo, hget⟩ := ih acc pk svc hnd.2 hrest hact
            exact ⟨r, by rw [hstep]; exact hgo, hget⟩

/-- C1 counterexample: for the concrete manager monitoring identity `P`
with 5 processed events and one stored notification, `handleReconnection`
keeps the identity key but installs a brand-new service whose processed
count is 0 and whose storage is empty — the claim's "processed-event
count preserved, notifications unaffected" fails on the code. -/
theorem C1_reconnection_cex :
    c1Svc.eventCount = 5 ∧
    c1Svc.storage.size = 1 ∧
    c1Mgr.handleReconnection 100 =
      Except.ok { services := [("P", freshStartedService "P" 100)] } ∧
    (freshStartedService "P" 100).eventCount = 0 ∧
    (freshStartedService "P" 100).storage.size = 0 := by decide

/-- C1 amended: after `handleReconnection`, every identity that was
monitoring before is still present under the same identity key, holding
a freshly constructed service whose live query is opened against the
identity-scoped filter with a new `since` bound equal to the
reconnection time — but with its processed-event count reset to 0 and
its stored notifications discarded (fresh empty storage). -/
theorem C1_reconnection_amended (m : SubscriptionManager) (now : Nat)
    (pk : String) (svc : NotificationService)
    (hnd : (m.services.map Prod.fst).Nodup)
    (hget : jsMapGet pk m.services = some svc)
    (hact : svc.subscription.isSome = true) :
    ∃ m', m.handleReconnection now = Except.ok m' ∧
      jsMapGet pk m'.services = some (freshStartedService pk now) ∧
      (freshStartedService pk now).agentPubkey = pk ∧
      (freshStartedService pk now).subscription =
        some { pTags := [pk], since := now } ∧
      (freshStartedService pk now).eventCount = 0 ∧
      (freshStartedService pk now).storage = emptyStorage 1000 := by
  obtain ⟨r, hgo, hr⟩ := handleReconnectionGo_active now m.services [] pk svc
    hnd (jsMapGet_mem hget) hact
  refine ⟨{ services := r }, ?_, hr, rfl, rfl, rfl, rfl⟩
  unfold SubscriptionManager.handleReconnection
  rw [hgo]
  rfl

/-- Witness for C1 amended at the concrete manager. -/
theorem C1_reconnection_amended_wit :
    ∃ m', c1Mgr.handleReconnection 100 = Except.ok m' ∧
      jsMapGet "P" m'.services = some (freshStartedService "P" 100) ∧
      (freshStartedService "P" 100).agentPubkey = "P" ∧
      (freshStartedService "P" 100).subscription =
        some { pTags := ["P"], since := 100 } ∧
      (freshStartedService "P" 100).eventCount = 0 ∧
      (freshStartedService "P" 100).storage = emptyStorage 1000 :=
  C1_reconnection_amended c1Mgr 100 "P" c1Svc (by decide) (by decide) (by decide)

/-- The walk's parent choice agrees with the spec's wording of the
parent rule. -/
theorem parentIdOf_eq_spec (e : SourceEvent) : parentIdOf e = parentIdSpec e := by
  simp only [parentIdOf, parentIdSpec]
  cases hf : (eTagsOf e).find? (fun t => t.get? 3 == some "reply") with
  | some t => rfl
  | none =>
      cases hl : eTagsOf e with
      | nil => simp
      | cons t ts =>
          cases ts with
          | nil => simp [List.get?]
          | cons t2 ts2 =>
              have h1 : ((t :: t2 :: ts2).length == 1) = false := by
                rw [beq_eq_false_iff_ne]
                simp only [List.length_cons]
                omega
              have h2 : (t :: t2 :: ts2).length ≥ 2 := by
                simp only [List.length_cons]
                omega
              simp [h1, h2]

/-- The root choice agrees with the spec's wording of the root rule
(both positional branches of the code collapse to the first tag). -/
theorem rootIdOf_eq_spec (e : SourceEvent) : rootIdOf e = rootIdSpec e := by
  simp only [rootIdOf, rootIdSpec]
  cases hl : eTagsOf e with
  | nil => simp
  | cons t ts =>
      have h0 : ((t :: ts).length == 0) = false := by
        rw [beq_eq_false_iff_ne]
        simp only [List.length_cons]
        omega
      have hie : (t :: ts).isEmpty = false := rfl
      simp only [h0, hie, Bool.false_eq_true, if_false]
      cases hf : ((t :: ts).find? (fun t => t.get? 3 == some "root")) with
      | some rt => rfl
      | none => simp [List.get?]

/-- A walk that starts at the root immediately yields the singleton
path. -/
theorem walkLoop_at_root (eventMap : List (String × SourceEvent)) (rootId : String)
    (fuel : Nat) (cur : SourceEvent) (h : (cur.id == rootId) = true) :
    walkLoop eventMap rootId (fuel + 1) cur = some [cur] := by
  rw [walkLoop, if_pos h]

/-- C3: in the backward walk, the parent of an event is chosen exactly
as the spec words it (marked reply tag, else the only `"e"` tag, else
the last `"e"` tag); when the computed parent id is absent from the
candidate lookup table the walk stops and yields just the longest
resolvable suffix ending at the current event instead of an error; and
on the legacy chain `R <- A <- B` (two unmarked tags on `B`)
`getThread(B)` returns the root-first path `[R, A, B]`. -/
theorem C3_parent_walk (eventMap : List (String × SourceEvent)) (rootId : String)
    (fuel : Nat) (cur : SourceEvent) (pid : String)
    (hroot : (cur.id == rootId) = false)
    (hpid : parentIdOf cur = some pid) (hne : pid ≠ "")
    (hmiss : jsMapGet pid eventMap = none) :
    (∀ e : SourceEvent, parentIdOf e = parentIdSpec e) ∧
    walkLoop eventMap rootId (fuel + 1) cur = some [cur] ∧
    getThread threadDemoDb "B" = ThreadResult.path [evR, evA, evB] := by
  refine ⟨parentIdOf_eq_spec, ?_, by decide⟩
  rw [walkLoop]
  rw [if_neg (by simp [hroot])]
  simp only [nextWalkEvent, hpid]
  rw [if_pos hne, hmiss]

/-- Witness for C3 at a concrete event, map and parent id. -/
theorem C3_parent_walk_wit :
    (∀ e : SourceEvent, parentIdOf e = parentIdSpec e) ∧
    walkLoop [] "Z" 1 evB = some [evB] ∧
    getThread threadDemoDb "B" = ThreadResult.path [evR, evA, evB] :=
  C3_parent_walk [] "Z" 0 evB "A" (by decide) (by decide) (by decide) (by decide)

/-- C4: the thread root of an event is determined exactly as the spec
words it (no `"e"` tags: its own id; marked root tag: its id; otherwise
the first `"e"` tag's id), and `getThread` on an event with zero `"e"`
tags returns the single-element path containing just that event,
regardless of the rest of the event pool. -/
theorem C4_root_determination (db : List SourceEvent) (eventId : String)
    (e : SourceEvent) (hfetch : fetchEvent db eventId = some e)
    (hempty : eTagsOf e = []) :
    (∀ e' : SourceEvent, rootIdOf e' = rootIdSpec e') ∧
    getThread db eventId = ThreadResult.path [e] := by
  refine ⟨rootIdOf_eq_spec, ?_⟩
  have hroot : rootIdOf e = some e.id := by
    simp [rootIdOf, hempty]
  unfold getThread
  rw [hfetch]
  simp only [hroot, beq_self_eq_true, if_true]
  have hw := walkLoop_at_root (threadEventMap db e.id e) e.id
    ((threadEventMap db e.id e).length + 1) e (by simp)
  rw [show (threadEventMap db e.id e).length + 2 =
      ((threadEventMap db e.id e).length + 1) + 1 from rfl, hw]

/-- Witness for C4 at the scenario root event. -/
theorem C4_root_determination_wit :
    (∀ e' : SourceEvent, rootIdOf e' = rootIdSpec e') ∧
    getThread threadDemoDb "R" = ThreadResult.path [evR] :=
  C4_root_determination threadDemoDb "R" evR (by decide) (by decide)

/-- Number of `"e"` tags is positive exactly when some `"e"` tag exists. -/
theorem eTags_length_pos_iff (e : SourceEvent) :
    0 < (eTagsOf e).length ↔
      e.tags.any (fun t => t.get? 0 == some "e") = true := by
  constructor
  · intro h0
    have hne : eTagsOf e ≠ [] := by
      intro hc
      rw [hc] at h0
      simp at h0
    obtain ⟨t, ht⟩ := List.exists_mem_of_ne_nil _ hne
    exact List.any_eq_true.mpr
      ⟨t, (List.mem_filter.mp ht).1, (List.mem_filter.mp ht).2⟩
  · intro h
    obtain ⟨t, htm, htp⟩ := List.any_eq_true.mp h
    have : t ∈ eTagsOf e := List.mem_filter.mpr ⟨htm, htp⟩
    exact List.length_pos.mpr (List.ne_nil_of_mem this)

/-- C5: the classifier evaluates the precedence list exactly as the
spec words it (mention-on-note-kind, reply, reaction, repost, other;
first match wins), and an event of the standard note kind with at least
one `"p"` tag and at least one `"e"` tag classifies as mention/high,
not reply. -/
theorem C5_classifier_precedence (e : SourceEvent)
    (hp : e.tags.any (fun t => t.get? 0 == some "p") = true)
    (he : e.tags.any (fun t => t.get? 0 == some "e") = true)
    (hk : e.kind = 1) :
    (∀ e' : SourceEvent, categorizeEvent e' = categorizeSpec e') ∧
    categorizeEvent e = (Category.mention, Priority.high) := by
  constructor
  · intro e'
    have hb : decide ((eTagsOf e').length > 0) =
        e'.tags.any (fun t => t.get? 0 == some "e") := by
      cases hany : e'.tags.any (fun t => t.get? 0 == some "e") with
      | true => exact decide_eq_true ((eTags_length_pos_iff e').mpr hany)
      | false =>
          apply decide_eq_false
          intro hc
          have := (eTags_length_pos_iff e').mp hc
          rw [hany] at this
          exact Bool.false_ne_true this
    simp [categorizeEvent, categorizeSpec, enrichEventContext, hb]
  · have hm : (enrichEventContext e).isMention = true := by
      simp only [enrichEventContext]
      exact hp
    have hcond : ((enrichEventContext e).isMention && (e.kind == 1)) = true := by
      rw [hm, hk]
      rfl
    simp only [categorizeEvent]
    rw [if_pos hcond]

/-- Witness for C5 at a concrete note-kind event carrying both tag
kinds. -/
theorem C5_classifier_precedence_wit :
    (∀ e' : SourceEvent, categorizeEvent e' = categorizeSpec e') ∧
    categorizeEvent
      { id := "m", pubkey := "pm", kind := 1, created_at := 4, content := "hi",
        tags := [["p", "agent"], ["e", "R", "", "reply"]] } =
      (Category.mention, Priority.high) :=
  C5_classifier_precedence
    { id := "m", pubkey := "pm", kind := 1, created_at := 4, content := "hi",
      tags := [["p", "agent"], ["e", "R", "", "reply"]] }
    (by decide) (by decide) (by decide)

/-- Membership after a `store` is membership in the updated map (the
prune loop only deletes entries). -/
theorem mem_store_notifications {s : NotificationStorage} {n : NotificationEvent}
    {p : String × NotificationEvent} (hp : p ∈ (s.store n).notifications) :
    p ∈ jsMapSet (generateKey n) n s.notifications := by
  unfold NotificationStorage.store NotificationStorage.prune at hp
  exact pruneLoop_mem _ _ hp

/-- Storing an id-less notification keeps every stored notification
id-less. -/
theorem store_ids_none {s : NotificationStorage} {n : NotificationEvent}
    (hs : ∀ p ∈ s.notifications, p.2.id = none) (hn : n.id = none) :
    ∀ p ∈ (s.store n).notifications, p.2.id = none := by
  intro p hp
  rcases jsMapSet_mem (mem_store_notifications hp) with h1 | h2
  · rw [h1]
    exact hn
  · exact hs p h2

/-- Every notification held by a service that started empty and handled
any event sequence is id-less (the builder never sets an id). -/
theorem handleMany_ids_none :
    ∀ (evs : List (SourceEvent × Nat)) (svc : NotificationService),
    (∀ p ∈ svc.storage.notifications, p.2.id = none) →
    ∀ p ∈ (svc.handleMany evs).storage.notifications, p.2.id = none := by
  intro evs
  induction evs with
  | nil => intro svc h; exact h
  | cons ev rest ih =>
      intro svc h
      have hstep : svc.handleMany (ev :: rest) =
          (svc.handleIncomingEvent ev.1 ev.2).handleMany rest := rfl
      rw [hstep]
      exact ih _ (store_ids_none h rfl)

/-- C9: every record emitted by a resource-style NDJSON read has
exactly the fields created_at, content, kind, author pubkey and tags —
in particular no `id` and no `sig` field.  For the feed resources the
formatter never includes them; for the notifications resource the
source spells `id: n.id`, but every notification a service ever stores
comes from the builder, which sets no id, and `JSON.stringify` omits
`undefined` values. -/
theorem C9_ndjson_records (e : SourceEvent) (pk : String) (cap : Nat)
    (evs : List (SourceEvent × Nat)) (limit : Nat) (since : Option Nat)
    (r : List (String × FieldVal))
    (hr : r ∈ notificationsRead ((NotificationService.new pk cap).handleMany evs)
      limit since) :
    (formatFeedRecord e).map Prod.fst =
      ["created_at", "content", "kind", "pubkey", "tags"] ∧
    "id" ∉ (formatFeedRecord e).map Prod.fst ∧
    "sig" ∉ (formatFeedRecord e).map Prod.fst ∧
    r.map Prod.fst = ["created_at", "content", "kind", "pubkey", "tags"] ∧
    "id" ∉ r.map Prod.fst ∧
    "sig" ∉ r.map Prod.fst := by
  obtain ⟨n, hn, hfmt⟩ := List.mem_map.mp hr
  have hnv : n ∈ ((NotificationService.new pk cap).handleMany
      evs).storage.notifications.map Prod.snd := mem_of_mem_retrieve hn
  obtain ⟨q, hq, hqn⟩ := List.mem_map.mp hnv
  have hbase : ∀ p ∈ (NotificationService.new pk cap).storage.notifications,
      p.2.id = none := by
    intro p hp
    exact absurd hp (List.not_mem_nil p)
  have hid : n.id = none := by
    rw [← hqn]
    exact handleMany_ids_none evs _ hbase q hq
  have hkeys : r.map Prod.fst = ["created_at", "content", "kind", "pubkey", "tags"] := by
    rw [← hfmt]
    simp [formatNotificationRecord, hid]
  have hfeed : (formatFeedRecord e).map Prod.fst =
      ["created_at", "content", "kind", "pubkey", "tags"] := rfl
  refine ⟨hfeed, ?_, ?_, hkeys, ?_, ?_⟩
  · rw [hfeed]; decide
  · rw [hfeed]; decide
  · rw [hkeys]; decide
  · rw [hkeys]; decide

/-- Witness for C9 at a concrete handled sequence and emitted record. -/
theorem C9_ndjson_records_wit :
    (formatFeedRecord evA).map Prod.fst =
      ["created_at", "content", "kind", "pubkey", "tags"] ∧
    "id" ∉ (formatFeedRecord evA).map Prod.fst ∧
    "sig" ∉ (formatFeedRecord evA).map Prod.fst ∧
    (formatNotificationRecord (buildNotificationEvent evB "P" 60)).map Prod.fst =
      ["created_at", "content", "kind", "pubkey", "tags"] ∧
    "id" ∉ (formatNotificationRecord (buildNotificationEvent evB "P" 60)).map Prod.fst ∧
    "sig" ∉ (formatNotificationRecord (buildNotificationEvent evB "P" 60)).map Prod.fst :=
  C9_ndjson_records evA "P" 1000 [(evB, 60)] 50 none
    (formatNotificationRecord (buildNotificationEvent evB "P" 60)) (by decide)

/-- C10: the live-query filter constructed by `startMonitoring` carries
`since` equal to the subscription's start time (and the `"#p"` scope of
the watched identity), so an event whose timestamp lies before the
moment monitoring began never matches the filter and is never turned
into a notification. -/
theorem C10_since_bound (svc : NotificationService) (now : Nat)
    (h : svc.subscription = none) :
    svc.startMonitoring now = Except.ok { svc with
      startTime := now
      subscription := some { pTags := [svc.agentPubkey], since := now } } ∧
    (∀ ev : SourceEvent, ev.created_at < now →
      matchesFilter { pTags := [svc.agentPubkey], since := now } ev = false) := by
  constructor
  · unfold NotificationService.startMonitoring
    rw [h]
    rfl
  · intro ev hlt
    unfold matchesFilter
    have hdec : decide (({ pTags := [svc.agentPubkey], since := now } :
        LiveFilter).since ≤ ev.created_at) = false := by
      apply decide_eq_false
      simp only
      omega
    rw [hdec, Bool.and_false]

/-- Witness for C10 at a concrete fresh service. -/
theorem C10_since_bound_wit :
    (NotificationService.new "P" 1000).startMonitoring 100 =
      Except.ok { NotificationService.new "P" 1000 with
        startTime := 100
        subscription := some { pTags := ["P"], since := 100 } } ∧
    (∀ ev : SourceEvent, ev.created_at < 100 →
      matchesFilter { pTags := ["P"], since := 100 } ev = false) :=
  C10_since_bound (NotificationService.new "P" 1000) 100 (by decide)

/-- Unfolding of the fuelled resolver at fuel zero: the depth guard
returns the content unrewritten. -/
theorem resolveGoF_zero (env : ResolveEnv) (isTop : Bool) (content : String) :
    resolveGoF env 0 isTop content = content := rfl

/-- Unfolding of the fuelled resolver at positive fuel: the per-match
loop runs with the resolver at one unit less fuel. -/
theorem resolveGoF_succ (env : ResolveEnv) (fuel : Nat) (isTop : Bool)
    (content : String) :
    resolveGoF env (fuel + 1) isTop content =
      (let ms := findMarkers content
       if ms.isEmpty then content
       else
         let pr := processMatchesGo env (resolveGoF env fuel false) ms [] []
         let resolved := pr.1.foldl (fun acc p => jsReplaceAll acc p.1 p.2) content
         if isTop && !pr.2.isEmpty then resolved ++ debugTrailer pr.2
         else resolved) := rfl

/-- C7: content resolution always terminates; once the current depth
reaches `maxDepth` the content is returned unrewritten, below it the
embedded-event recursion runs at exactly `currentDepth + 1`, and on the
concrete cyclic network (X embeds Y embeds X) resolution at the default
`maxDepth = 2` produces the nested blocks with the innermost content
left unresolved. -/
theorem C7_resolver_termination :
    (∀ (env : ResolveEnv) (content : String) (maxDepth currentDepth : Nat),
      maxDepth ≤ currentDepth →
      resolveNostrContent env content maxDepth currentDepth = content) ∧
    (∀ (env : ResolveEnv) (content : String) (maxDepth currentDepth : Nat),
      currentDepth < maxDepth →
      resolveNostrContent env content maxDepth currentDepth =
        (let ms := findMarkers content
         if ms.isEmpty then content
         else
           let pr := processMatchesGo env
             (fun s => resolveNostrContent env s maxDepth (currentDepth + 1)) ms [] []
           let resolved := pr.1.foldl (fun acc p => jsReplaceAll acc p.1 p.2) content
           if (currentDepth == 0) && !pr.2.isEmpty then resolved ++ debugTrailer pr.2
           else resolved)) ∧
    resolveNostrContent rsvEnv rsvX.content 2 0 =
      "see <embedded-event id=\"nostr:ny\">\n**Yve** • time:22\nback <embedded-event id=\"nostr:nx\">\n**Xavier** • time:11\nsee nostr:ny\n</embedded-event>\n</embedded-event>" ∧
    resolveNostrContent rsvEnv rsvX.content 2 2 = rsvX.content := by
  refine ⟨?_, ?_, by decide, rfl⟩
  · intro env content maxDepth currentDepth h
    unfold resolveNostrContent
    rw [Nat.sub_eq_zero_of_le h]
    exact resolveGoF_zero env (currentDepth == 0) content
  · intro env content maxDepth currentDepth h
    have hk : maxDepth - currentDepth = (maxDepth - (currentDepth + 1)) + 1 := by
      omega
    unfold resolveNostrContent
    rw [hk]
    exact resolveGoF_succ env (maxDepth - (currentDepth + 1))
      (currentDepth == 0) content

/-- Witness for C7 at a concrete environment and depth. -/
theorem C7_resolver_termination_wit :
    resolveNostrContent rsvEnv "plain text" 2 5 = "plain text" :=
  C7_resolver_termination.1 rsvEnv "plain text" 2 5 (by omega)

end NostrMCP
